import Mathlib

/-!
Verification of the question-answering core of the auto-job-application
repository: the text normalizer (`normalizeAndTokenize`), the similarity
search over the learned answer store (`getMostSimilarQuestion`), the numeric
similarity gate of `answerNumericQuestions`, the fallback policies
(`handleNewQuestion`, `getSmartDefaultAnswer`), the learning write path
(`saveAnswer`), and the store loading logic.

The JavaScript sources are embedded shallowly: JS strings become `String`,
JS objects used as string-keyed maps become insertion-ordered association
lists `List (String × String)`, floating-point similarity scores become `ℚ`
(the claims under study are about comparison/threshold structure only), the
TF-IDF scorer `calculateSimilarity` is an explicit function parameter `sim`
of the search (its numeric innards live in the `natural` library), and the
filesystem is an explicit success/failure parameter with `Except` capturing
"an exception escapes".
-/

/-! ## JavaScript string primitives -/

/-- ASCII lower-casing of a single character, as used to model
`String.prototype.toLowerCase` on the ASCII texts handled here. -/
def asciiLowerChar (c : Char) : Char := c.toLower

/-- Model of JS `s.toLowerCase()`. -/
def asciiLower (s : String) : String := String.mk (s.toList.map asciiLowerChar)

/-- Does `pat` occur as a contiguous run inside `l`? -/
def isInfixList (pat : List Char) : List Char → Bool
  | [] => pat.isEmpty
  | c :: rest => pat.isPrefixOf (c :: rest) || isInfixList pat rest

/-- Model of JS `s.includes(sub)` (substring containment). -/
def jsIncludes (s : String) (sub : String) : Bool :=
  isInfixList sub.toList s.toList

/-- Drop a suffix of the given length-pattern from the end of a word. -/
def dropSuffix (w suf : List Char) : List Char :=
  w.take (w.length - suf.length)

/-- Model of JS `s.trim()`: remove whitespace from both ends. -/
def jsTrim (s : String) : String :=
  String.mk
    (((s.toList.dropWhile Char.isWhitespace).reverse.dropWhile
        Char.isWhitespace).reverse)

/-! ## Word tokenizer

The `natural` package `WordTokenizer` splits on runs of characters outside
`A-Za-zА-Яа-я0-9_` and discards empty fragments. -/

/-- A character the `natural` WordTokenizer keeps inside a token. -/
def isWordChar (c : Char) : Bool :=
  c.isAlpha || c.isDigit || c == '_' || (0x410 ≤ c.toNat && c.toNat ≤ 0x44F)

/-- Accumulating tokenizer: `cur` is the current (reversed) in-progress token. -/
def tokenizeAux : List Char → List Char → List (List Char)
  | [], cur => if cur.isEmpty then [] else [cur.reverse]
  | c :: rest, cur =>
    if isWordChar c then tokenizeAux rest (c :: cur)
    else if cur.isEmpty then tokenizeAux rest []
    else cur.reverse :: tokenizeAux rest []

/-- Model of `new WordTokenizer().tokenize(text)`. -/
def wordTokenize (s : String) : List String :=
  (tokenizeAux s.toList []).map String.mk

/-! ## Porter stemmer

The `natural` package `PorterStemmer` implements the original Porter (1980)
algorithm; tokens shorter than three characters are returned unchanged. -/

/-- The five plain vowels. -/
def vowelsPlain : List Char := ['a', 'e', 'i', 'o', 'u']

/-- Positional consonant classification: `true` marks a consonant.  A letter
is a consonant when it is not a, e, i, o, u and is not a `y` preceded by a
consonant (so `y` at the start of a word counts as a consonant). -/
def classifyAux : Bool → List Char → List Bool
  | _, [] => []
  | prevCons, c :: rest =>
    let cons := if vowelsPlain.contains c then false
                else if c == 'y' then !prevCons else true
    cons :: classifyAux cons rest

/-- Consonant/vowel classification of a whole word. -/
def classify (w : List Char) : List Bool := classifyAux false w

/-- Count the VC pairs in a classified word (the boolean is `true` on a
consonant); the carried flag records whether the previous letter was a
vowel. -/
def mCountAux : Bool → List Bool → Nat
  | _, [] => 0
  | prevVowel, cons :: rest =>
    (if cons && prevVowel then 1 else 0) + mCountAux (!cons) rest

/-- The Porter measure m of a word: the number of VC sequences. -/
def mCount (w : List Char) : Nat := mCountAux false (classify w)

/-- Does the word contain a vowel (under positional classification)? -/
def containsVowelClasses (w : List Char) : Bool :=
  (classify w).contains false

/-- Does the word end in a doubled consonant (`/([^aeiou])\1$/`)? -/
def endsDoubleCons (w : List Char) : Bool :=
  match w.reverse with
  | c1 :: c2 :: _ => c1 == c2 && !(vowelsPlain.contains c1)
  | _ => false

/-- Does the word end consonant–vowel–consonant with the final consonant not
w, x or y (the Porter `*o` condition)? -/
def endsCVC (w : List Char) : Bool :=
  match (classify w).reverse, w.reverse with
  | c1 :: v :: c2 :: _, last :: _ =>
    c1 && !v && c2 && !(['w', 'x', 'y'].contains last)
  | _, _ => false

/-- Porter step 1a: sses→ss, ies→i, and a trailing `s` not preceded by `s`
is dropped (on tokens longer than two characters). -/
def step1a (w : List Char) : List Char :=
  if "sses".toList.isSuffixOf w || "ies".toList.isSuffixOf w then
    dropSuffix w "es".toList
  else if w.getLast? == some 's' && !(w.dropLast.getLast? == some 's')
      && decide (w.length > 2) then
    dropSuffix w "s".toList
  else w

/-- Porter step 1b cleanup after removing `ed`/`ing`: at→ate, bl→ble,
iz→ize, drop one of a doubled final consonant not in {l, s, z}, or add a
final `e` when the measure is one and the stem ends CVC. -/
def step1bFixup (w : List Char) : List Char :=
  if "at".toList.isSuffixOf w then w ++ ['e']
  else if "bl".toList.isSuffixOf w then w ++ ['e']
  else if "iz".toList.isSuffixOf w then w ++ ['e']
  else if endsDoubleCons w
      && !(match w.getLast? with
           | some c => ['l', 's', 'z'].contains c
           | none => false) then
    w.dropLast
  else if mCount w == 1 && endsCVC w then w ++ ['e']
  else w

/-- Porter step 1b: (m>0) eed→ee; (*v*) ed→∅ and (*v*) ing→∅ followed by the
cleanup above. -/
def step1b (w : List Char) : List Char :=
  if "eed".toList.isSuffixOf w then
    if mCount (dropSuffix w "eed".toList) > 0 then dropSuffix w "d".toList
    else w
  else if "ed".toList.isSuffixOf w
      && containsVowelClasses (dropSuffix w "ed".toList) then
    step1bFixup (dropSuffix w "ed".toList)
  else if "ing".toList.isSuffixOf w
      && containsVowelClasses (dropSuffix w "ing".toList) then
    step1bFixup (dropSuffix w "ing".toList)
  else w

/-- Porter step 1c: a final `y` becomes `i` when the rest of the word
contains a vowel. -/
def step1c (w : List Char) : List Char :=
  if w.getLast? == some 'y' && (classify w).dropLast.contains false then
    w.dropLast ++ ['i']
  else w

/-- Apply an ordered table of (suffix, replacement) rules the way the
`natural` stemmer does: each rule whose suffix matches the original word
with the measure of the matched stem above `thr` is applied to the current
word when it still carries that suffix. -/
def applyPatternsAux (orig : List Char) (thr : Nat)
    (pats : List (List Char × List Char)) (cur : List Char) : List Char :=
  pats.foldl
    (fun cur p =>
      if p.1.isSuffixOf orig && decide (mCount (dropSuffix orig p.1) > thr) then
        if p.1.isSuffixOf cur then dropSuffix cur p.1 ++ p.2 else cur
      else cur)
    cur

/-- Run a rule table on a word, starting from the word itself. -/
def applyPatterns (w : List Char) (pats : List (List Char × List Char))
    (thr : Nat) : List Char :=
  applyPatternsAux w thr pats w

/-- The step 2 rule table (measure threshold 0). -/
def step2Table : List (List Char × List Char) :=
  [("ational".toList, "ate".toList), ("tional".toList, "tion".toList),
   ("enci".toList, "ence".toList), ("anci".toList, "ance".toList),
   ("izer".toList, "ize".toList), ("abli".toList, "able".toList),
   ("bli".toList, "ble".toList), ("alli".toList, "al".toList),
   ("entli".toList, "ent".toList), ("eli".toList, "e".toList),
   ("ousli".toList, "ous".toList), ("ization".toList, "ize".toList),
   ("ation".toList, "ate".toList), ("ator".toList, "ate".toList),
   ("alism".toList, "al".toList), ("iveness".toList, "ive".toList),
   ("fulness".toList, "ful".toList), ("ousness".toList, "ous".toList),
   ("aliti".toList, "al".toList), ("iviti".toList, "ive".toList),
   ("biliti".toList, "ble".toList), ("logi".toList, "log".toList)]

/-- Porter step 2. -/
def step2 (w : List Char) : List Char := applyPatterns w step2Table 0

/-- The step 3 rule table (measure threshold 0). -/
def step3Table : List (List Char × List Char) :=
  [("icate".toList, "ic".toList), ("ative".toList, []),
   ("alize".toList, "al".toList), ("iciti".toList, "ic".toList),
   ("ical".toList, "ic".toList), ("ful".toList, []), ("ness".toList, [])]

/-- Porter step 3. -/
def step3 (w : List Char) : List Char := applyPatterns w step3Table 0

/-- Step 4 rules that precede the `(s|t)ion` rule (measure threshold 1). -/
def step4TableA : List (List Char × List Char) :=
  [("al".toList, []), ("ance".toList, []), ("ence".toList, []),
   ("er".toList, []), ("ic".toList, []), ("able".toList, []),
   ("ible".toList, []), ("ant".toList, []), ("ement".toList, []),
   ("ment".toList, []), ("ent".toList, [])]

/-- Step 4 rules that follow the `(s|t)ion` rule (measure threshold 1). -/
def step4TableB : List (List Char × List Char) :=
  [("ou".toList, []), ("ism".toList, []), ("ate".toList, []),
   ("iti".toList, []), ("ous".toList, []), ("ive".toList, []),
   ("ize".toList, [])]

/-- Does the word match `/([st])ion$/`? -/
def endsStIon (w : List Char) : Bool :=
  "sion".toList.isSuffixOf w || "tion".toList.isSuffixOf w

/-- Porter step 4 (the `ion` rule keeps the preceding `s`/`t` in the stem
whose measure is tested). -/
def step4 (w : List Char) : List Char :=
  let cur1 := applyPatternsAux w 1 step4TableA w
  let cur2 :=
    if endsStIon w && decide (mCount (dropSuffix w "ion".toList) > 1) then
      if endsStIon cur1 then dropSuffix cur1 "ion".toList else cur1
    else cur1
  applyPatternsAux w 1 step4TableB cur2

/-- Porter step 5a: drop a final `e` when m>1, or when m=1 and the stem does
not end CVC. -/
def step5a (w : List Char) : List Char :=
  if w.getLast? == some 'e' then
    let stem := w.dropLast
    if mCount stem > 1 || (mCount stem == 1 && !(endsCVC stem)) then stem
    else w
  else w

/-- Porter step 5b: reduce a final doubled `l` when m>1. -/
def step5b (w : List Char) : List Char :=
  if decide (mCount w > 1) && endsDoubleCons w && "ll".toList.isSuffixOf w
  then w.dropLast
  else w

/-- The full Porter stemmer as exposed by `natural` (`PorterStemmer.stem`):
tokens shorter than three characters pass through unchanged. -/
def porterStem (t : String) : String :=
  if t.length < 3 then t
  else
    String.mk
      (step5b (step5a (step4 (step3 (step2 (step1c (step1b
        (step1a (asciiLower t).toList))))))))

/-! ## normalizeAndTokenize (utils_Numeric.js) -/

/-- The boilerplate lead-in alternatives of the strip regex, in the order
the alternation tries them. -/
def boilerplatePhrases : List String :=
  ["how many years of work experience do you have with",
   "how many years of do you have with",
   "how many years of do you have",
   "how many years of experience do you have with",
   "how many years of experience do you have"]

/-- Strip one leading boilerplate phrase, case-insensitively, from the start
of the text (the `text.replace(regex, '')` of `normalizeAndTokenize`). -/
def stripBoilerplate (text : String) : String :=
  match boilerplatePhrases.find?
      (fun p => (asciiLower p).toList.isPrefixOf (asciiLower text).toList) with
  | some p => String.mk (text.toList.drop p.length)
  | none => text

/-- `normalizeAndTokenize` from utils_Numeric.js: strip a boilerplate
lead-in, lower-case, tokenize, Porter-stem every token, and join the stems
with single spaces. -/
def normalizeAndTokenize (text : String) : String :=
  let processedText := stripBoilerplate text
  let tokens := wordTokenize (asciiLower processedText)
  String.intercalate " " (tokens.map porterStem)

/-! ## The learned answer stores -/

/-- A persisted answer store (`answersDatabase`, `binaryAnswersDatabase`):
a JS object used as a map from raw question text to answer text, modelled
as an insertion-ordered association list. -/
abbrev Store := List (String × String)

/-- Model of JS `db[q]` (also of `db.hasOwnProperty(q)` via `isSome`). -/
def jsLookup (db : Store) (q : String) : Option String :=
  (db.find? (fun p => p.1 == q)).map Prod.snd

/-- Model of JS `db[q] = a`: overwrite the binding when the key exists,
otherwise append it (JS objects keep insertion order for string keys). -/
def jsInsert (db : Store) (q a : String) : Store :=
  if (db.find? (fun p => p.1 == q)).isSome then
    db.map (fun p => if p.1 == q then (q, a) else p)
  else db ++ [(q, a)]

/-! ## Keyword list and similarity search (utils_Numeric.js) -/

/-- The hard-coded `keywords` array of utils_Numeric.js, verbatim (note the
capitalised entries: they are compared against lower-cased text). -/
def keywords : List String :=
  ["javascript", "typescript", "node.js", "react.js", "angular", "vue.js",
   "python", "django", "flask",
   "java", "spring", "spring boot",
   "aws", "azure", "google cloud", "cloud computing",
   "docker", "kubernetes", "containerization",
   "sql", "nosql", "mongodb", "postgresql", "mysql", "Databases",
   "git", "github", "gitlab",
   "agile", "scrum", "kanban",
   "machine learning", "deep learning", "artificial intelligence",
   "data science",
   "html", "css", "sass", "bootstrap", "Web Development",
   "restful api", "graphql",
   "microservices", "serverless",
   "devops", "continuous integration", "continuous deployment",
   "software engineering", "software development", "full stack",
   "cybersecurity", "network security",
   "react native", "mobile development",
   "blockchain", "ethereum", "smart contracts",
   "agile methodologies", "lean methodologies",
   "big data", "apache spark", "hadoop",
   "C++", "C", "Kotlin",
   "software testing", "teamcenter", "dita xml"]

/-- `keywords.some(keyword => s.toLowerCase().includes(keyword))`, the test
used both for stored keys (`dbContainsKeyword`) and for the incoming
question (`inputContainsKeyword`). -/
def containsKeyword (s : String) : Bool :=
  keywords.any (fun k => jsIncludes (asciiLower s) k)

/-- JS truthiness of the `mostSimilarQuestion` variable (a string or null):
falsy when null or the empty string. -/
def isFalsy : Option String → Bool
  | none => true
  | some s => s == ""

/-- The result object of `getMostSimilarQuestion`. -/
structure SimResult where
  mostSimilarQuestion : Option String
  maxSimilarity : ℚ
deriving DecidableEq

/-- The similarity the first loop of `getMostSimilarQuestion` assigns to a
stored key: the raw score, multiplied by 1.2 when the incoming question
itself contains a keyword (`similarity *= 1.2`). -/
def boostedScore (sim : String → String → ℚ) (question q : String) : ℚ :=
  let similarity0 := sim question q
  if containsKeyword question then similarity0 * (6 / 5) else similarity0

/-- One iteration of the first loop of `getMostSimilarQuestion`: a stored
key containing a keyword is scored (boosted score) and replaces the
tracked maximum when strictly greater. -/
def kwStep (sim : String → String → ℚ) (question : String)
    (acc : Option String × ℚ) (q : String) : Option String × ℚ :=
  if containsKeyword q then
    if acc.2 < boostedScore sim question q
    then (some q, boostedScore sim question q)
    else acc
  else acc

/-- The first loop of `getMostSimilarQuestion`: scan the stored keys that
contain a keyword, score each with `sim` (the TF-IDF scorer), multiply the
score by 1.2 when the incoming question itself contains a keyword, and
track the strict maximum together with its key. -/
def kwFold (sim : String → String → ℚ) (question : String)
    (qs : List String) (init : Option String × ℚ) : Option String × ℚ :=
  qs.foldl (kwStep sim question) init

/-- One iteration of the second loop of `getMostSimilarQuestion`: a stored
key containing no keyword is scored without boost. -/
def nonKwStep (sim : String → String → ℚ) (question : String)
    (acc : Option String × ℚ) (q : String) : Option String × ℚ :=
  if !(containsKeyword q) then
    if acc.2 < sim question q then (some q, sim question q) else acc
  else acc

/-- The second loop of `getMostSimilarQuestion`: scan the stored keys that
do not contain a keyword, without any boost, continuing from the state of
the first loop. -/
def nonKwFold (sim : String → String → ℚ) (question : String)
    (qs : List String) (init : Option String × ℚ) : Option String × ℚ :=
  qs.foldl (nonKwStep sim question) init

/-- The search state of `getMostSimilarQuestion` just before the threshold
check: the keyword loop runs first, and the non-keyword loop runs only when
the tracked best key is still falsy. -/
def searchState (sim : String → String → ℚ) (db : Store)
    (question : String) : Option String × ℚ :=
  let questions := db.map Prod.fst
  let st1 := kwFold sim question questions (none, -1)
  if isFalsy st1.1 then nonKwFold sim question questions st1 else st1

/-- `getMostSimilarQuestion` from utils_Numeric.js, parameterized by the
similarity scorer `sim` (the library-backed `calculateSimilarity`): null on
an empty store; an exact key match returns the question itself with
similarity 1.0; otherwise the keyword-partitioned maximum is returned
unless it is below 0.4. -/
def getMostSimilarQuestion (sim : String → String → ℚ) (db : Store)
    (question : String) : Option SimResult :=
  let questions := db.map Prod.fst
  if questions.isEmpty then none
  else if questions.contains question then
    some ⟨some question, 1⟩
  else
    let st := searchState sim db question
    if st.2 < 2 / 5 then none else some ⟨st.1, st.2⟩

/-- One iteration of the keyword loop without the boost multiplier (used
only to compare the code against the spec sentence on boost monotonicity). -/
def kwStepNoBoost (sim : String → String → ℚ) (question : String)
    (acc : Option String × ℚ) (q : String) : Option String × ℚ :=
  if containsKeyword q then
    if acc.2 < sim question q then (some q, sim question q) else acc
  else acc

/-- The first loop without the boost multiplier. -/
def kwFoldNoBoost (sim : String → String → ℚ) (question : String)
    (qs : List String) (init : Option String × ℚ) : Option String × ℚ :=
  qs.foldl (kwStepNoBoost sim question) init

/-- The pre-threshold search state without the boost. -/
def searchStateNoBoost (sim : String → String → ℚ) (db : Store)
    (question : String) : Option String × ℚ :=
  let questions := db.map Prod.fst
  let st1 := kwFoldNoBoost sim question questions (none, -1)
  if isFalsy st1.1 then nonKwFold sim question questions st1 else st1

/-- Modelled from the spec: the same search as `getMostSimilarQuestion` but
with no keyword boost applied, the comparison point of the keyword-boost
monotonicity property. -/
def getMostSimilarQuestionNoBoost (sim : String → String → ℚ) (db : Store)
    (question : String) : Option SimResult :=
  let questions := db.map Prod.fst
  if questions.isEmpty then none
  else if questions.contains question then
    some ⟨some question, 1⟩
  else
    let st := searchStateNoBoost sim db question
    if st.2 < 2 / 5 then none else some ⟨st.1, st.2⟩

/-! ## The numeric similarity gate (answerNumericQuestions) -/

/-- Head of the stored questions sorted by descending similarity: the JS
`sort((a, b) => b.similarity - a.similarity)` is stable, so the head is the
earliest entry attaining the strict maximum. -/
def bestStep (acc : Option (String × ℚ)) (p : String × ℚ) :
    Option (String × ℚ) :=
  match acc with
  | none => some p
  | some b => if p.2 > b.2 then some p else acc

/-- Fold computing that head. -/
def bestSimilar (scores : List (String × ℚ)) : Option (String × ℚ) :=
  scores.foldl bestStep none

/-- The similarity gate of `answerNumericQuestions`: score the normalized
question against every stored key, and reuse the stored answer of the best
match only when its similarity is strictly above 0.5; otherwise the flow
falls back to `handleNewQuestion` (modelled as `none`). -/
def numericSimilarityGate (sim : String → String → ℚ) (db : Store)
    (questionText : String) : Option String :=
  let normalizedQuestionText := normalizeAndTokenize (jsTrim questionText)
  let similarQuestions :=
    db.map (fun p => (p.1, sim normalizedQuestionText (normalizeAndTokenize p.1)))
  match bestSimilar similarQuestions with
  | some b => if b.2 > 1 / 2 then jsLookup db b.1 else none
  | none => none

/-- Modelled from the spec: the MatchResolver contract
`resolve(rawQuestion, store)` returns the stored answer of the best-scoring
key produced by the similarity search, or NO_MATCH (`none`). -/
def resolveAnswer (sim : String → String → ℚ) (db : Store)
    (question : String) : Option String :=
  match getMostSimilarQuestion sim db question with
  | some r =>
    match r.mostSimilarQuestion with
    | some k => jsLookup db k
    | none => none
  | none => none

/-! ## Fallback policy for numeric questions (handleNewQuestion) -/

/-- A job profile, restricted to the fields `handleNewQuestion` reads. The
`yearsOfExperience` object may itself contain a `"default"` key. -/
structure JobProfile where
  yearsOfExperience : Option (List (String × String))
  expectedSalary : Option String
deriving DecidableEq

/-- Look up the active profile (`jobProfiles[currentProfile]`). -/
def profileOf (profiles : List (String × JobProfile)) (k : String) :
    Option JobProfile :=
  (profiles.find? (fun p => p.1 == k)).map Prod.snd

/-- The test of `/(how many years|years of|experience with|experience do
you have)/i`. -/
def experienceRegexTest (q : String) : Bool :=
  ["how many years", "years of", "experience with",
   "experience do you have"].any (fun p => jsIncludes (asciiLower q) p)

/-- The test of `/(salary|compensation|expected salary|current
salary|ctc)/i`. -/
def salaryRegexTest (q : String) : Bool :=
  ["salary", "compensation", "expected salary", "current salary",
   "ctc"].any (fun p => jsIncludes (asciiLower q) p)

/-- The profile-skill scan of `handleNewQuestion`: the first skill whose
normalized, lower-cased form occurs inside the cleaned question (the
`for (const skill in ...)` loop, which also visits a `"default"` key). -/
def findSkillAnswer (cleanedQuestion : String)
    (yoe : List (String × String)) : Option String :=
  (yoe.find?
    (fun p =>
      jsIncludes cleanedQuestion (asciiLower (normalizeAndTokenize p.1)))).map
    Prod.snd

/-- The interactive tail of `handleNewQuestion`: prompt the user, trim the
input, save it and return it. -/
def promptFallback (db : Store) (promptInput question : String) :
    String × Store :=
  (jsTrim promptInput, jsInsert db question (jsTrim promptInput))

/-- The salary branch of `handleNewQuestion` followed by the interactive
prompt: a salary-phrased question takes the active profile truthy
`expectedSalary` when present; otherwise the prompt decides; the resolved
answer is saved (`saveAnswer`) before being returned. -/
def salaryOrPrompt (profiles : List (String × JobProfile))
    (currentProfile : String) (db : Store) (promptInput question : String) :
    String × Store :=
  if salaryRegexTest question then
    match profileOf profiles currentProfile with
    | some prof =>
      match prof.expectedSalary with
      | some sal =>
        if sal == "" then promptFallback db promptInput question
        else (sal, jsInsert db question sal)
      | none => promptFallback db promptInput question
    | none => promptFallback db promptInput question
  else promptFallback db promptInput question

/-- `handleNewQuestion` from utils_Numeric.js, with the interactive prompt
modelled by the `promptInput` parameter: an experience-phrased question
tries the active profile per-skill map and then its (truthy) `default`
entry; otherwise (and for non-experience questions) the salary branch and
the interactive prompt decide.  Every path saves the resolved answer into
the store via `saveAnswer` before returning it. -/
def handleNewQuestion (profiles : List (String × JobProfile))
    (currentProfile : String) (db : Store) (promptInput question : String) :
    String × Store :=
  if experienceRegexTest question then
    match profileOf profiles currentProfile with
    | some prof =>
      match prof.yearsOfExperience with
      | some yoe =>
        (match findSkillAnswer (normalizeAndTokenize (jsTrim question)) yoe with
         | some ans => (ans, jsInsert db question ans)
         | none =>
           match jsLookup yoe "default" with
           | some d =>
             if d == "" then
               salaryOrPrompt profiles currentProfile db promptInput question
             else (d, jsInsert db question d)
           | none =>
             salaryOrPrompt profiles currentProfile db promptInput question)
      | none => salaryOrPrompt profiles currentProfile db promptInput question
    | none => salaryOrPrompt profiles currentProfile db promptInput question
  else salaryOrPrompt profiles currentProfile db promptInput question

/-! ## Persistence: saving answers and loading stores -/

/-- `saveAnswer` from utils_Numeric.js: the in-memory store is updated
first; the full-file rewrite is wrapped in try/catch, so a failed write
(`writeOk = false`) is only logged (second component) and no exception
escapes (the result is always `Except.ok`). -/
def saveAnswer (db : Store) (question answer : String) (writeOk : Bool) :
    Except String (Store × Bool) :=
  let db' := jsInsert db question answer
  if writeOk then Except.ok (db', false) else Except.ok (db', true)

/-- The inline learning write of `answerBinaryQuestions` (utils_Binary.js):
`binaryAnswersDatabase[questionText] = answer` followed by a try/catch
write, structurally identical to `saveAnswer`. -/
def binaryLearnSave (db : Store) (questionText answer : String)
    (writeOk : Bool) : Except String (Store × Bool) :=
  let db' := jsInsert db questionText answer
  if writeOk then Except.ok (db', false) else Except.ok (db', true)

/-- The module-load of `answersDatabase` (utils_Numeric.js): if the backing
file exists, parse it (`parsed = none` models a JSON.parse throw); on a
parse error the corrupt file is copied to a timestamped backup (which can
itself throw when `copyOk = false`) and the store is reset to empty; if the
file does not exist an empty store is written out (`writeOk`).  The boolean
in the result records whether a backup was created. -/
def loadAnswersDatabase (fileExists : Bool) (parsed : Option Store)
    (copyOk : Bool) (writeOk : Bool) : Except String (Store × Bool) :=
  if fileExists then
    match parsed with
    | some db => Except.ok (db, false)
    | none =>
      if fileExists then
        if copyOk then Except.ok ([], true)
        else Except.error "copyFileSync threw"
      else Except.ok ([], false)
  else
    if writeOk then Except.ok ([], false)
    else Except.error "writeFileSync threw"

/-- The module-load of `binaryAnswersDatabase` (utils_Binary.js), identical
in structure to the numeric one. -/
def loadBinaryAnswersDatabase (fileExists : Bool) (parsed : Option Store)
    (copyOk : Bool) (writeOk : Bool) : Except String (Store × Bool) :=
  if fileExists then
    match parsed with
    | some db => Except.ok (db, false)
    | none =>
      if fileExists then
        if copyOk then Except.ok ([], true)
        else Except.error "copyFileSync threw"
      else Except.ok ([], false)
  else
    if writeOk then Except.ok ([], false)
    else Except.error "writeFileSync threw"

/-! ## Binary fallback policy (utils_Binary.js) -/

/-- One category of `commonBinaryQuestions`: its substring patterns and its
default answer. -/
structure BinaryCategory where
  patterns : List String
  defaultAnswer : String
deriving DecidableEq

/-- The `commonBinaryQuestions` table, in object insertion order:
authorization, relocation, workMode, education, startDate, background.
The authorization category also carries `sponsorshipAnswer` ("No"), kept
separately below. -/
def commonBinaryQuestions : List BinaryCategory :=
  [⟨["legally authorized to work", "work authorization", "sponsorship",
     "visa status"], "Yes"⟩,
   ⟨["willing to relocate", "relocate to", "comfortable commuting",
     "relocating to"], "Yes"⟩,
   ⟨["remote setting", "hybrid setting", "onsite setting",
     "work from home", "telecommute", "work remotely"], "Yes"⟩,
   ⟨["bachelor\x27s degree", "master\x27s degree", "degree in",
     "completed education"], "Yes"⟩,
   ⟨["start immediately", "available to start", "start date",
     "when can you start"], "Yes"⟩,
   ⟨["background check", "drug test", "security clearance"], "Yes"⟩]

/-- `commonBinaryQuestions.authorization.sponsorshipAnswer`. -/
def sponsorshipAnswer : String := "No"

/-- Characters matched by `.` in a JS regex without the `s` flag (anything
but a line terminator). -/
def dotMatches (c : Char) : Bool :=
  !(c == Char.ofNat 10 || c == Char.ofNat 13 ||
    c == Char.ofNat 0x2028 || c == Char.ofNat 0x2029)

/-- Is there a position in `l` at which `b` starts, at or after the current
position, with only `.`-matchable characters skipped on the way? -/
def dotStarThen (b : List Char) : List Char → Bool
  | [] => b.isEmpty
  | c :: rest => b.isPrefixOf (c :: rest) || (dotMatches c && dotStarThen b rest)

/-- Does `a`, then `.*`, then `b` match somewhere inside `l` (the shape of
the alternatives `need.*sponsorship` and `sponsorship.*required`)? -/
def seqMatch (a b : List Char) : List Char → Bool
  | [] => a.isEmpty && dotStarThen b []
  | c :: rest =>
    (a.isPrefixOf (c :: rest) && dotStarThen b ((c :: rest).drop a.length))
    || seqMatch a b rest

/-- The test of `/require sponsorship|need.*sponsorship|sponsorship.*required/`
on the already lower-cased question. -/
def sponsorshipRegexTest (lowerQuestion : String) : Bool :=
  jsIncludes lowerQuestion "require sponsorship"
  || seqMatch "need".toList "sponsorship".toList lowerQuestion.toList
  || seqMatch "sponsorship".toList "required".toList lowerQuestion.toList

/-- The pattern-table scan of `getSmartDefaultAnswer`: the first category
with a pattern contained in the lower-cased question yields its default
answer. -/
def binaryTableAnswer (lowerQuestion : String) : Option String :=
  (commonBinaryQuestions.find?
    (fun cat =>
      cat.patterns.any (fun p => jsIncludes lowerQuestion (asciiLower p)))).map
    BinaryCategory.defaultAnswer

/-- `getSmartDefaultAnswer` from utils_Binary.js: sponsorship questions get
the sponsorship answer "No"; otherwise the first matching category default;
otherwise "Yes". -/
def getSmartDefaultAnswer (questionText : String) : String :=
  let lowerQuestion := asciiLower questionText
  if sponsorshipRegexTest lowerQuestion then sponsorshipAnswer
  else
    match binaryTableAnswer lowerQuestion with
    | some a => a
    | none => "Yes"

example : porterStem "callousness" = "callous" := by decide
example : porterStem "callous" = "callou" := by decide
example : porterStem "working" = "work" := by decide
example : normalizeAndTokenize "How many years of experience do you have with React.js?" = "react js" := by decide
example : normalizeAndTokenize "hello world" = "hello world" := by decide
example : getSmartDefaultAnswer "Do you require sponsorship to work in this country?" = "No" := by decide
example : getSmartDefaultAnswer "Are you legally authorized to work in this country?" = "Yes" := by decide
example : containsKeyword "plain question" = false := by decide
example : containsKeyword "javascript experience" = true := by decide
example : getMostSimilarQuestion (fun _ _ => 0) [("Q1", "A1")] "Q1" = some ⟨some "Q1", 1⟩ := by decide
example : numericSimilarityGate (fun _ _ => 1/2) [("stored question", "ans")] "new question" = none := by
  with_unfolding_all decide
example : getMostSimilarQuestion (fun _ _ => 1/2) [("javascript", "a")] "javascript experience"
    = some ⟨some "javascript", 3/5⟩ := by with_unfolding_all decide
example : getMostSimilarQuestionNoBoost (fun _ _ => 1/2) [("javascript", "a")] "javascript experience"
    = some ⟨some "javascript", 1/2⟩ := by with_unfolding_all decide

/-! ## Helper lemmas about the store -/

theorem beq_false_of_not_eq {a b : String} (h : ¬ a = b) : (a == b) = false := by
  cases hb : (a == b) with
  | false => rfl
  | true => exact absurd (by simpa using hb) h

theorem jsLookup_map_overwrite (q a : String) :
    ∀ db : Store, (db.find? (fun p => p.1 == q)).isSome = true →
      jsLookup (db.map (fun p => if p.1 == q then (q, a) else p)) q = some a := by
  intro db
  induction db with
  | nil => intro h; simp [List.find?] at h
  | cons p rest ih =>
    intro h
    by_cases hpq : p.1 = q
    · simp [jsLookup, List.find?_cons_of_pos, hpq]
    · have hb : (p.1 == q) = false := beq_false_of_not_eq hpq
      have h' : (rest.find? (fun p => p.1 == q)).isSome = true := by
        rwa [List.find?_cons_of_neg _ (by simp [hb])] at h
      have goal' := ih h'
      simp only [List.map_cons, jsLookup] at goal' ⊢
      rwa [if_neg (by simp [hb]), List.find?_cons_of_neg _ (by simp [hb])]

theorem jsLookup_append_new (q a : String) :
    ∀ db : Store, (db.find? (fun p => p.1 == q)).isSome = false →
      jsLookup (db ++ [(q, a)]) q = some a := by
  intro db
  induction db with
  | nil => intro _; simp [jsLookup, List.find?]
  | cons p rest ih =>
    intro h
    by_cases hpq : p.1 = q
    · rw [List.find?_cons_of_pos _ (by simp [hpq])] at h
      simp at h
    · have hb : (p.1 == q) = false := beq_false_of_not_eq hpq
      rw [List.find?_cons_of_neg _ (by simp [hb])] at h
      have goal' := ih h
      simp only [List.cons_append, jsLookup] at goal' ⊢
      rwa [List.find?_cons_of_neg _ (by simp [hb])]

theorem jsLookup_jsInsert (db : Store) (q a : String) :
    jsLookup (jsInsert db q a) q = some a := by
  unfold jsInsert
  cases h : (db.find? (fun p => p.1 == q)).isSome with
  | true => rw [if_pos rfl]; exact jsLookup_map_overwrite q a db h
  | false =>
    rw [if_neg (by simp)]
    exact jsLookup_append_new q a db h

theorem contains_of_jsLookup {db : Store} {q a : String}
    (h : jsLookup db q = some a) : (db.map Prod.fst).contains q = true := by
  induction db with
  | nil => simp [jsLookup, List.find?] at h
  | cons p rest ih =>
    by_cases hpq : p.1 = q
    · simp [List.contains, hpq]
    · have hb : (p.1 == q) = false := beq_false_of_not_eq hpq
      simp only [jsLookup] at h
      rw [List.find?_cons_of_neg _ (by simp [hb])] at h
      have := ih (by simpa [jsLookup] using h)
      have hq : (q == p.1) = false := beq_false_of_not_eq (fun hh => hpq hh.symm)
      simpa [List.contains, List.elem_cons, hq] using this

theorem isEmpty_false_of_contains {l : List String} {q : String}
    (h : l.contains q = true) : l.isEmpty = false := by
  cases l with
  | nil => simp [List.contains] at h
  | cons x xs => rfl

theorem jsLookup_isSome_of_contains {db : Store} {q : String}
    (h : (db.map Prod.fst).contains q = true) :
    (jsLookup db q).isSome = true := by
  induction db with
  | nil => simp [List.contains] at h
  | cons p rest ih =>
    by_cases hpq : p.1 = q
    · simp [jsLookup, List.find?_cons_of_pos, hpq]
    · have hb : (p.1 == q) = false := beq_false_of_not_eq hpq
      have hq : (q == p.1) = false := beq_false_of_not_eq (fun hh => hpq hh.symm)
      simp only [List.map_cons, List.contains, List.elem_cons, hq] at h
      have := ih (by simpa [List.contains] using h)
      simp only [jsLookup]
      rwa [List.find?_cons_of_neg _ (by simp [hb])]

/-! ## C1: exact-match priority -/

/-- C1: for every scorer, store and raw question, if the raw question is
present verbatim as a key of the store then `getMostSimilarQuestion`
returns that question itself with similarity 1.0, and resolution returns
its stored answer, regardless of what the similarity scorer computes on
any other stored key. -/
theorem exactMatchPriority (sim : String → String → ℚ) (db : Store)
    (q a : String) (h : jsLookup db q = some a) :
    getMostSimilarQuestion sim db q = some ⟨some q, 1⟩ ∧
    resolveAnswer sim db q = some a := by
  have hc : (db.map Prod.fst).contains q = true := contains_of_jsLookup h
  have hne : (db.map Prod.fst).isEmpty = false := isEmpty_false_of_contains hc
  have h1 : getMostSimilarQuestion sim db q = some ⟨some q, 1⟩ := by
    unfold getMostSimilarQuestion
    rw [if_neg (by simp [hne]), if_pos hc]
  refine ⟨h1, ?_⟩
  unfold resolveAnswer
  rw [h1]
  exact h

theorem exactMatchPriorityWitness :
    getMostSimilarQuestion (fun _ _ => 0) [("Q1", "A1")] "Q1"
      = some ⟨some "Q1", 1⟩ ∧
    resolveAnswer (fun _ _ => 0) [("Q1", "A1")] "Q1" = some "A1" :=
  exactMatchPriority (fun _ _ => 0) [("Q1", "A1")] "Q1" "A1" (by decide)

/-! ## C5: sponsorship override -/

/-- C5: the binary fallback `getSmartDefaultAnswer` answers "No" to
"Do you require sponsorship to work in this country?" and "Yes" to
"Are you legally authorized to work in this country?". -/
theorem sponsorshipOverride :
    getSmartDefaultAnswer "Do you require sponsorship to work in this country?"
      = "No" ∧
    getSmartDefaultAnswer "Are you legally authorized to work in this country?"
      = "Yes" := by
  exact ⟨by decide, by decide⟩

/-! ## C7: corrupt-store resilience -/

/-- C7: loading a store whose backing file exists but holds invalid JSON
(`parsed = none`) does not throw (assuming the backup copy itself succeeds):
both the numeric and the binary load produce the empty in-memory store and
create a backup of the corrupt file. -/
theorem corruptStoreResilience (fileExists : Bool) (parsed : Option Store)
    (copyOk writeOk : Bool) (hfe : fileExists = true) (hp : parsed = none)
    (hc : copyOk = true) :
    loadAnswersDatabase fileExists parsed copyOk writeOk
      = Except.ok ([], true) ∧
    loadBinaryAnswersDatabase fileExists parsed copyOk writeOk
      = Except.ok ([], true) := by
  subst hfe; subst hp; subst hc
  exact ⟨rfl, rfl⟩

theorem corruptStoreResilienceWitness :
    loadAnswersDatabase true none true true = Except.ok ([], true) ∧
    loadBinaryAnswersDatabase true none true true = Except.ok ([], true) :=
  corruptStoreResilience true none true true rfl rfl rfl

/-! ## C8: persistence-failure atomicity of learning -/

/-- C8: for every question and answer, whether or not the backing-file
write succeeds, `saveAnswer` (and the binary learning write) return
normally (`Except.ok`, never an escaping exception) and the in-memory
store afterwards contains the newly recorded mapping. -/
theorem persistenceFailureAtomicity (db : Store) (q a : String)
    (writeOk : Bool) :
    saveAnswer db q a writeOk = Except.ok (jsInsert db q a, !writeOk) ∧
    binaryLearnSave db q a writeOk = Except.ok (jsInsert db q a, !writeOk) ∧
    jsLookup (jsInsert db q a) q = some a := by
  refine ⟨?_, ?_, jsLookup_jsInsert db q a⟩ <;> cases writeOk <;> rfl

/-! ## C10: binary fallback range -/

theorem binaryTableAnswer_yes {s v : String}
    (h : binaryTableAnswer s = some v) : v = "Yes" := by
  unfold binaryTableAnswer at h
  cases hf : commonBinaryQuestions.find?
      (fun cat =>
        cat.patterns.any (fun p => jsIncludes s (asciiLower p))) with
  | none => rw [hf] at h; exact absurd h (by simp)
  | some cat =>
    rw [hf] at h
    have hmem := List.mem_of_find?_eq_some hf
    have hall : ∀ c ∈ commonBinaryQuestions, c.defaultAnswer = "Yes" := by
      decide
    have hv : cat.defaultAnswer = v := by simpa using h
    rw [← hv]
    exact hall cat hmem

/-- C10 (implicit): `getSmartDefaultAnswer` always returns "Yes" or "No",
and returns "No" exactly when the lower-cased question matches the
sponsorship regex; every rule of the pattern table and the final fallback
yield "Yes". -/
theorem binaryFallbackRange (q : String) :
    (getSmartDefaultAnswer q = "Yes" ∨ getSmartDefaultAnswer q = "No") ∧
    (getSmartDefaultAnswer q = "No" ↔
      sponsorshipRegexTest (asciiLower q) = true) := by
  have hmain : getSmartDefaultAnswer q =
      (if sponsorshipRegexTest (asciiLower q) = true then sponsorshipAnswer
       else
         match binaryTableAnswer (asciiLower q) with
         | some a => a
         | none => "Yes") := rfl
  rw [hmain]
  cases hs : sponsorshipRegexTest (asciiLower q) with
  | true =>
    rw [if_pos rfl]
    exact ⟨Or.inr rfl, by simp [sponsorshipAnswer]⟩
  | false =>
    rw [if_neg (by simp)]
    cases hb : binaryTableAnswer (asciiLower q) with
    | none => exact ⟨Or.inl rfl, by simp⟩
    | some v =>
      have hv := binaryTableAnswer_yes hb
      subst hv
      exact ⟨Or.inl rfl, by simp⟩

/-! ## C9: normalization idempotence -/

/-- C9 counterexample: `normalizeAndTokenize` is not idempotent, because
the Porter stemmer is not: "callousness" stems to "callous" in one pass,
and "callous" stems further to "callou". -/
theorem normalizationIdempotenceCounterexample :
    normalizeAndTokenize (normalizeAndTokenize "callousness")
      ≠ normalizeAndTokenize "callousness" := by
  decide

theorem list_map_fixed {α : Type} (f : α → α) :
    ∀ l : List α, (∀ t ∈ l, f t = t) → l.map f = l := by
  intro l
  induction l with
  | nil => intro _; rfl
  | cons x xs ih =>
    intro h
    simp only [List.map_cons]
    rw [h x (by simp), ih (fun t ht => h t (by simp [ht]))]

/-- C9 amended: `normalizeAndTokenize` is a fixed point on its output
exactly on inputs whose output survives the second pipeline pass — no
boilerplate phrase is stripped from it again, lower-casing and
re-tokenization reproduce it, and every one of its tokens is a fixed point
of the Porter stemmer.  The unrestricted idempotence claim fails (see the
counterexample) precisely because the last condition can fail. -/
theorem normalizationIdempotenceAmended (x : String)
    (h1 : stripBoilerplate (normalizeAndTokenize x) = normalizeAndTokenize x)
    (h2 : asciiLower (normalizeAndTokenize x) = normalizeAndTokenize x)
    (h3 : String.intercalate " " (wordTokenize (normalizeAndTokenize x))
      = normalizeAndTokenize x)
    (h4 : ∀ t ∈ wordTokenize (normalizeAndTokenize x), porterStem t = t) :
    normalizeAndTokenize (normalizeAndTokenize x) = normalizeAndTokenize x := by
  show String.intercalate " "
      ((wordTokenize (asciiLower (stripBoilerplate (normalizeAndTokenize x)))).map
        porterStem) = normalizeAndTokenize x
  rw [h1, h2, list_map_fixed porterStem _ h4, h3]

theorem normalizationIdempotenceAmendedWitness :
    (stripBoilerplate (normalizeAndTokenize "hello world")
        = normalizeAndTokenize "hello world") ∧
    (asciiLower (normalizeAndTokenize "hello world")
        = normalizeAndTokenize "hello world") ∧
    (String.intercalate " " (wordTokenize (normalizeAndTokenize "hello world"))
        = normalizeAndTokenize "hello world") ∧
    (∀ t ∈ wordTokenize (normalizeAndTokenize "hello world"),
        porterStem t = t) ∧
    normalizeAndTokenize (normalizeAndTokenize "hello world")
        = normalizeAndTokenize "hello world" :=
  ⟨by decide, by decide, by decide, by decide,
   normalizationIdempotenceAmended "hello world" (by decide) (by decide)
     (by decide) (by decide)⟩

/-! ## C2: threshold boundary convention -/

theorem contains_of_mem {l : List String} {a : String} (h : a ∈ l) :
    l.contains a = true := by
  induction l with
  | nil => cases h
  | cons x xs ih =>
    rcases List.mem_cons.mp h with h1 | h2
    · simp [List.contains, List.elem_cons, h1]
    · have hx := ih h2
      simp [List.contains, List.elem_cons] at hx ⊢
      exact Or.inr hx

theorem bestStep_foldl_mem :
    ∀ (l : List (String × ℚ)) (acc : Option (String × ℚ)) (b : String × ℚ),
      l.foldl bestStep acc = some b → b ∈ l ∨ acc = some b := by
  intro l
  induction l with
  | nil => intro acc b h; exact Or.inr h
  | cons p rest ih =>
    intro acc b h
    rcases ih (bestStep acc p) b h with h1 | h2
    · exact Or.inl (List.mem_cons_of_mem _ h1)
    · cases acc with
      | none =>
        have hb : bestStep none p = some p := rfl
        rw [hb] at h2
        have : p = b := by simpa using h2
        exact Or.inl (this ▸ List.mem_cons_self p rest)
      | some c =>
        have hb : bestStep (some c) p = if p.2 > c.2 then some p else some c :=
          rfl
        rw [hb] at h2
        by_cases hc : p.2 > c.2
        · rw [if_pos hc] at h2
          have : p = b := by simpa using h2
          exact Or.inl (this ▸ List.mem_cons_self p rest)
        · rw [if_neg hc] at h2
          exact Or.inr h2

theorem bestSimilar_mem {l : List (String × ℚ)} {b : String × ℚ}
    (h : bestSimilar l = some b) : b ∈ l := by
  rcases bestStep_foldl_mem l none b h with h1 | h2
  · exact h1
  · simp at h2

/-- C2 counterexample: at the numeric/text gate a best candidate scoring
exactly the 0.5 threshold is NOT accepted — the flow falls back
(`none`) — refuting the claim that a score equal to the acceptance
threshold is accepted at the 0.5 gate. -/
theorem thresholdBoundaryCounterexample :
    numericSimilarityGate (fun _ _ => 1/2) [("stored question", "ans")]
      "new question" = none ∧
    bestSimilar ([("stored question", "ans")].map
      (fun p => (p.1, (fun _ _ => (1:ℚ)/2)
        (normalizeAndTokenize (jsTrim "new question"))
        (normalizeAndTokenize p.1))))
      = some ("stored question", 1/2) := by
  exact ⟨by with_unfolding_all decide, by with_unfolding_all decide⟩

/-- C2 amended: the two gates pick opposite boundary conventions.  The
general similarity search (`getMostSimilarQuestion`, threshold 0.4) accepts
a best score exactly at the threshold (it rejects only scores strictly
below 0.4), while the numeric/text gate of `answerNumericQuestions`
(threshold 0.5) requires the best score to be strictly above 0.5, so a
best score exactly at 0.5 is rejected to the fallback. -/
theorem thresholdBoundaryAmended (sim : String → String → ℚ) (db : Store)
    (q : String) :
    ((db.map Prod.fst).isEmpty = false →
      (db.map Prod.fst).contains q = false →
      ((getMostSimilarQuestion sim db q).isSome = true ↔
        2/5 ≤ (searchState sim db q).2)) ∧
    (∀ k s,
      bestSimilar (db.map (fun p =>
        (p.1, sim (normalizeAndTokenize (jsTrim q))
          (normalizeAndTokenize p.1)))) = some (k, s) →
      ((numericSimilarityGate sim db q).isSome = true ↔ 1/2 < s)) := by
  constructor
  · intro hne hq
    have hmain : getMostSimilarQuestion sim db q =
        (if (db.map Prod.fst).isEmpty = true then none
         else if (db.map Prod.fst).contains q = true then some ⟨some q, 1⟩
         else if (searchState sim db q).2 < 2/5 then none
              else some ⟨(searchState sim db q).1, (searchState sim db q).2⟩) :=
      rfl
    rw [hmain, if_neg (by rw [hne]; exact Bool.false_ne_true),
      if_neg (by rw [hq]; exact Bool.false_ne_true)]
    by_cases h : (searchState sim db q).2 < 2/5
    · rw [if_pos h]
      exact iff_of_false (by simp) (not_le.mpr h)
    · rw [if_neg h]
      exact iff_of_true rfl (le_of_not_lt h)
  · intro k s hbest
    have hmain2 : numericSimilarityGate sim db q =
        (match bestSimilar (db.map (fun p =>
            (p.1, sim (normalizeAndTokenize (jsTrim q))
              (normalizeAndTokenize p.1)))) with
         | some b => if b.2 > 1/2 then jsLookup db b.1 else none
         | none => none) := rfl
    rw [hmain2, hbest]
    show (if s > 1/2 then jsLookup db k else none).isSome = true ↔ 1/2 < s
    by_cases hs : (1:ℚ)/2 < s
    · rw [if_pos hs]
      have hbmem := bestSimilar_mem hbest
      obtain ⟨p, hp, hpe⟩ := List.mem_map.mp hbmem
      have hk : p.1 = k := congrArg Prod.fst hpe
      have hcon : (db.map Prod.fst).contains k = true := by
        apply contains_of_mem
        rw [← hk]
        exact List.mem_map_of_mem Prod.fst hp
      exact iff_of_true (jsLookup_isSome_of_contains hcon) hs
    · rw [if_neg hs]
      exact iff_of_false (by simp) hs

theorem thresholdBoundaryAmendedWitness :
    (((getMostSimilarQuestion (fun _ _ => (1:ℚ)/2)
        [("stored question", "ans")] "new question").isSome = true) ↔
      2/5 ≤ (searchState (fun _ _ => (1:ℚ)/2)
        [("stored question", "ans")] "new question").2) ∧
    (((numericSimilarityGate (fun _ _ => (1:ℚ)/2)
        [("stored question", "ans")] "new question").isSome = true) ↔
      (1:ℚ)/2 < 1/2) := by
  constructor
  · exact (thresholdBoundaryAmended (fun _ _ => (1:ℚ)/2)
      [("stored question", "ans")] "new question").1 (by decide) (by decide)
  · exact (thresholdBoundaryAmended (fun _ _ => (1:ℚ)/2)
      [("stored question", "ans")] "new question").2 "stored question" (1/2)
      (by with_unfolding_all decide)

/-! ## C6: learning round-trip -/

theorem salaryOrPrompt_shape (profiles : List (String × JobProfile))
    (currentProfile : String) (db : Store) (promptInput question : String) :
    ∃ a, salaryOrPrompt profiles currentProfile db promptInput question
      = (a, jsInsert db question a) := by
  unfold salaryOrPrompt promptFallback
  repeat' split
  all_goals exact ⟨_, rfl⟩

theorem handleNewQuestion_shape (profiles : List (String × JobProfile))
    (currentProfile : String) (db : Store) (promptInput question : String) :
    ∃ a, handleNewQuestion profiles currentProfile db promptInput question
      = (a, jsInsert db question a) := by
  unfold handleNewQuestion
  repeat' split
  all_goals
    first
      | exact ⟨_, rfl⟩
      | exact salaryOrPrompt_shape profiles currentProfile db promptInput
          question

/-- C6: for every raw question `q` not initially a key of the numeric
store, the fallback path `handleNewQuestion` resolves `q` to some answer
and saves it, so that immediately re-resolving the exact same raw text `q`
hits the exact-match path (`getMostSimilarQuestion` returns `q` with
similarity 1.0) and resolution yields the very answer just learned, for
every similarity scorer — the fallback is not consulted again. -/
theorem learningRoundTrip (sim : String → String → ℚ)
    (profiles : List (String × JobProfile)) (currentProfile : String)
    (db : Store) (promptInput q : String) (_hnew : jsLookup db q = none) :
    jsLookup (handleNewQuestion profiles currentProfile db promptInput q).2 q
      = some (handleNewQuestion profiles currentProfile db promptInput q).1 ∧
    getMostSimilarQuestion sim
        (handleNewQuestion profiles currentProfile db promptInput q).2 q
      = some ⟨some q, 1⟩ ∧
    resolveAnswer sim
        (handleNewQuestion profiles currentProfile db promptInput q).2 q
      = some (handleNewQuestion profiles currentProfile db promptInput q).1 := by
  obtain ⟨a, ha⟩ :=
    handleNewQuestion_shape profiles currentProfile db promptInput q
  rw [ha]
  have hlook : jsLookup (jsInsert db q a) q = some a := jsLookup_jsInsert db q a
  exact ⟨hlook, (exactMatchPriority sim (jsInsert db q a) q a hlook).1,
    (exactMatchPriority sim (jsInsert db q a) q a hlook).2⟩

theorem learningRoundTripWitness :
    jsLookup (handleNewQuestion [] "junior_developer" [] " 42 "
        "Some brand new question?").2 "Some brand new question?"
      = some (handleNewQuestion [] "junior_developer" [] " 42 "
        "Some brand new question?").1 ∧
    getMostSimilarQuestion (fun _ _ => 0)
        (handleNewQuestion [] "junior_developer" [] " 42 "
          "Some brand new question?").2 "Some brand new question?"
      = some ⟨some "Some brand new question?", 1⟩ ∧
    resolveAnswer (fun _ _ => 0)
        (handleNewQuestion [] "junior_developer" [] " 42 "
          "Some brand new question?").2 "Some brand new question?"
      = some (handleNewQuestion [] "junior_developer" [] " 42 "
        "Some brand new question?").1 :=
  learningRoundTrip (fun _ _ => 0) [] "junior_developer" [] " 42 "
    "Some brand new question?" (by decide)

/-! ## C3: keyword-partition fall-through -/

theorem kwStep_not_kw {sim : String → String → ℚ} {question k : String}
    (acc : Option String × ℚ) (h : containsKeyword k = false) :
    kwStep sim question acc k = acc := by
  unfold kwStep
  rw [h]
  simp

theorem kwStep_kw {sim : String → String → ℚ} {question k : String}
    (acc : Option String × ℚ) (h : containsKeyword k = true) :
    kwStep sim question acc k =
      if acc.2 < boostedScore sim question k
      then (some k, boostedScore sim question k)
      else acc := by
  unfold kwStep
  rw [h]
  simp

theorem boostedScore_nonneg {sim : String → String → ℚ}
    {question k : String} (hnn : ∀ a b, 0 ≤ sim a b) :
    0 ≤ boostedScore sim question k := by
  unfold boostedScore
  by_cases hq : containsKeyword question = true
  · rw [if_pos hq]; exact mul_nonneg (hnn question k) (by norm_num)
  · rw [if_neg hq]; exact hnn question k

theorem kwFold_no_kw (sim : String → String → ℚ) (question : String) :
    ∀ (qs : List String) (acc : Option String × ℚ),
      (∀ k ∈ qs, containsKeyword k = false) →
      kwFold sim question qs acc = acc := by
  intro qs
  induction qs with
  | nil => intro acc _; rfl
  | cons k rest ih =>
    intro acc h
    have hk : containsKeyword k = false := h k (by simp)
    have hstep : kwFold sim question (k :: rest) acc =
        kwFold sim question rest (kwStep sim question acc k) := rfl
    rw [hstep, kwStep_not_kw acc hk]
    exact ih acc (fun x hx => h x (by simp [hx]))

theorem kwFold_some_kw {sim : String → String → ℚ} {question : String}
    (hnn : ∀ a b, 0 ≤ sim a b) :
    ∀ (qs : List String) (acc : Option String × ℚ),
      (acc.1 = none → acc.2 = -1) →
      (∀ k, acc.1 = some k → containsKeyword k = true) →
      ((∃ k ∈ qs, containsKeyword k = true) ∨ (∃ k, acc.1 = some k)) →
      ∃ k, (kwFold sim question qs acc).1 = some k ∧
        containsKeyword k = true := by
  intro qs
  induction qs with
  | nil =>
    intro acc h1 h2 h3
    rcases h3 with ⟨k, hk, _⟩ | ⟨k, hk⟩
    · exact absurd hk (List.not_mem_nil k)
    · exact ⟨k, hk, h2 k hk⟩
  | cons k0 rest ih =>
    intro acc h1 h2 h3
    have hstep : kwFold sim question (k0 :: rest) acc =
        kwFold sim question rest (kwStep sim question acc k0) := rfl
    rw [hstep]
    by_cases hkw : containsKeyword k0 = true
    · rw [kwStep_kw acc hkw]
      by_cases hup : acc.2 < boostedScore sim question k0
      · rw [if_pos hup]
        exact ih (some k0, boostedScore sim question k0) (by simp)
          (fun k hk => by
            have : k0 = k := by simpa using hk
            exact this ▸ hkw)
          (Or.inr ⟨k0, rfl⟩)
      · rw [if_neg hup]
        have hsome : ∃ k, acc.1 = some k := by
          cases hacc : acc.1 with
          | some k => exact ⟨k, rfl⟩
          | none =>
            exfalso
            apply hup
            rw [h1 hacc]
            calc (-1 : ℚ) < 0 := by norm_num
              _ ≤ boostedScore sim question k0 := boostedScore_nonneg hnn
        exact ih acc h1 h2 (Or.inr hsome)
    · have hk : containsKeyword k0 = false := by
        cases hb : containsKeyword k0 with
        | false => rfl
        | true => exact absurd hb hkw
      rw [kwStep_not_kw acc hk]
      apply ih acc h1 h2
      rcases h3 with ⟨k, hkmem, hkkw⟩ | hs
      · rcases List.mem_cons.mp hkmem with h1' | h2'
        · exact absurd (h1' ▸ hkkw) (by simp [hk])
        · exact Or.inl ⟨k, h2', hkkw⟩
      · exact Or.inr hs

theorem containsKeyword_empty : containsKeyword "" = false := by decide

/-- The fall-through condition of `getMostSimilarQuestion`, characterised:
for a nonnegative scorer, the tracked best after the keyword loop is falsy
(so the non-keyword loop runs) precisely when no stored key contains a
keyword. -/
theorem kwFold_falsy_iff (sim : String → String → ℚ) (question : String)
    (qs : List String) (hnn : ∀ a b, 0 ≤ sim a b) :
    (isFalsy (kwFold sim question qs (none, -1)).1 = true ↔
      ∀ k ∈ qs, containsKeyword k = false) := by
  constructor
  · intro hfalsy k hk
    cases hkw : containsKeyword k with
    | false => rfl
    | true =>
      exfalso
      obtain ⟨k', hk', hkw'⟩ := kwFold_some_kw hnn qs (none, -1)
        (fun _ => rfl) (fun k h => by simp at h) (Or.inl ⟨k, hk, hkw⟩)
      rw [hk'] at hfalsy
      have : k' = "" := by simpa [isFalsy] using hfalsy
      rw [this] at hkw'
      exact absurd hkw' (by simp [containsKeyword_empty])
  · intro hall
    rw [kwFold_no_kw sim question qs (none, -1) hall]
    rfl

theorem boostedScore_zero {sim : String → String → ℚ} {question k : String}
    (h : sim question k = 0) : boostedScore sim question k = 0 := by
  unfold boostedScore
  rw [h]
  by_cases hq : containsKeyword question = true
  · rw [if_pos hq]; exact zero_mul _
  · rw [if_neg hq]

theorem kwFold_snd_nonpos {sim : String → String → ℚ} {question : String} :
    ∀ (qs : List String) (acc : Option String × ℚ),
      (∀ k ∈ qs, containsKeyword k = true → sim question k = 0) →
      acc.2 ≤ 0 → (kwFold sim question qs acc).2 ≤ 0 := by
  intro qs
  induction qs with
  | nil => intro acc _ hacc; exact hacc
  | cons k0 rest ih =>
    intro acc h hacc
    have hstep : kwFold sim question (k0 :: rest) acc =
        kwFold sim question rest (kwStep sim question acc k0) := rfl
    rw [hstep]
    have htail : ∀ k ∈ rest, containsKeyword k = true → sim question k = 0 :=
      fun k hk => h k (by simp [hk])
    by_cases hkw : containsKeyword k0 = true
    · rw [kwStep_kw acc hkw]
      have hz : boostedScore sim question k0 = 0 :=
        boostedScore_zero (h k0 (by simp) hkw)
      by_cases hup : acc.2 < boostedScore sim question k0
      · rw [if_pos hup]
        exact ih _ htail (by simp [hz])
      · rw [if_neg hup]
        exact ih _ htail hacc
    · have hk : containsKeyword k0 = false := by
        cases hb : containsKeyword k0 with
        | false => rfl
        | true => exact absurd hb hkw
      rw [kwStep_not_kw acc hk]
      exact ih _ htail hacc

/-- C3 counterexample: a store whose single keyword-bearing key scores 0
while its non-keyword key would score 1.  Contrary to the claim, the
search does NOT fall through to the non-keyword candidates — it returns
NO_MATCH — although the non-keyword loop, had it run, would have produced
the non-keyword key with similarity 1 (well above the 0.4 threshold). -/
theorem keywordFallThroughCounterexample :
    containsKeyword "uses javascript daily" = true ∧
    containsKeyword "plain question" = false ∧
    (fun _ k => if k = "plain question" then (1:ℚ) else 0) "anything?"
      "uses javascript daily" = 0 ∧
    getMostSimilarQuestion
      (fun _ k => if k = "plain question" then (1:ℚ) else 0)
      [("uses javascript daily", "a"), ("plain question", "b")] "anything?"
      = none ∧
    nonKwFold (fun _ k => if k = "plain question" then (1:ℚ) else 0)
      "anything?" ["uses javascript daily", "plain question"] (none, -1)
      = (some "plain question", 1) := by
  refine ⟨by decide, by decide, by decide, ?_, ?_⟩ <;>
    with_unfolding_all decide

/-- C3 amended: for a nonnegative scorer, the non-keyword stored keys are
scored exactly when NO keyword-bearing stored key exists: the first
keyword-bearing key always replaces the `-1` initial maximum, even with
score 0, so the tracked best is non-falsy and the fall-through never
happens merely because all keyword-bearing keys score 0 — in that
situation the search instead returns NO_MATCH (the best score 0 is below
the 0.4 threshold) without consulting the non-keyword keys. -/
theorem keywordFallThroughAmended (sim : String → String → ℚ) (db : Store)
    (q : String) (hnn : ∀ a b, 0 ≤ sim a b) :
    ((isFalsy (kwFold sim q (db.map Prod.fst) (none, -1)).1 = true) ↔
      ∀ p ∈ db, containsKeyword p.1 = false) ∧
    ((db.map Prod.fst).isEmpty = false →
     (db.map Prod.fst).contains q = false →
     (∃ p ∈ db, containsKeyword p.1 = true) →
     (∀ p ∈ db, containsKeyword p.1 = true → sim q p.1 = 0) →
     getMostSimilarQuestion sim db q = none) := by
  constructor
  · refine (kwFold_falsy_iff sim q (db.map Prod.fst) hnn).trans ?_
    constructor
    · intro h p hp
      exact h p.1 (List.mem_map_of_mem Prod.fst hp)
    · intro h k hk
      obtain ⟨p, hp, he⟩ := List.mem_map.mp hk
      exact he ▸ h p hp
  · intro hne hcont hex hzero
    have hmain : getMostSimilarQuestion sim db q =
        (if (db.map Prod.fst).isEmpty = true then none
         else if (db.map Prod.fst).contains q = true then some ⟨some q, 1⟩
         else if (searchState sim db q).2 < 2/5 then none
              else some ⟨(searchState sim db q).1, (searchState sim db q).2⟩) :=
      rfl
    rw [hmain, if_neg (by rw [hne]; exact Bool.false_ne_true),
      if_neg (by rw [hcont]; exact Bool.false_ne_true)]
    suffices hlt : (searchState sim db q).2 < 2/5 by rw [if_pos hlt]
    have hfalsy :
        isFalsy (kwFold sim q (db.map Prod.fst) (none, -1)).1 = false := by
      cases hb : isFalsy (kwFold sim q (db.map Prod.fst) (none, -1)).1 with
      | false => rfl
      | true =>
        obtain ⟨p, hp, hkw⟩ := hex
        have hc := (kwFold_falsy_iff sim q (db.map Prod.fst) hnn).mp hb p.1
          (List.mem_map_of_mem Prod.fst hp)
        rw [hkw] at hc
        exact absurd hc (by simp)
    have hform : searchState sim db q =
        (if isFalsy (kwFold sim q (db.map Prod.fst) (none, -1)).1 = true
         then nonKwFold sim q (db.map Prod.fst)
           (kwFold sim q (db.map Prod.fst) (none, -1))
         else kwFold sim q (db.map Prod.fst) (none, -1)) := rfl
    rw [hform, hfalsy, if_neg Bool.false_ne_true]
    have hkeys : ∀ k ∈ db.map Prod.fst, containsKeyword k = true →
        sim q k = 0 := by
      intro k hk hkw
      obtain ⟨p, hp, he⟩ := List.mem_map.mp hk
      exact he ▸ hzero p hp (he ▸ hkw)
    have hsnd : (kwFold sim q (db.map Prod.fst) (none, -1)).2 ≤ 0 :=
      kwFold_snd_nonpos (db.map Prod.fst) (none, -1) hkeys (by norm_num)
    exact lt_of_le_of_lt hsnd (by norm_num)

theorem keywordFallThroughAmendedWitness :
    ((isFalsy (kwFold (fun _ _ => (0:ℚ)) "x"
        ([("uses javascript daily", "a")].map Prod.fst) (none, -1)).1 = true)
      ↔ ∀ p ∈ [("uses javascript daily", "a")],
          containsKeyword p.1 = false) ∧
    getMostSimilarQuestion (fun _ _ => (0:ℚ))
      [("uses javascript daily", "a")] "x" = none := by
  constructor
  · exact (keywordFallThroughAmended (fun _ _ => (0:ℚ))
      [("uses javascript daily", "a")] "x" (fun _ _ => le_refl 0)).1
  · exact (keywordFallThroughAmended (fun _ _ => (0:ℚ))
      [("uses javascript daily", "a")] "x" (fun _ _ => le_refl 0)).2
      (by decide) (by decide) (by decide) (fun _ _ _ => rfl)

/-! ## C4: keyword boost monotonicity -/

theorem kwStepNoBoost_not_kw {sim : String → String → ℚ}
    {question k : String} (acc : Option String × ℚ)
    (h : containsKeyword k = false) :
    kwStepNoBoost sim question acc k = acc := by
  unfold kwStepNoBoost
  rw [h]
  simp

theorem kwStepNoBoost_kw {sim : String → String → ℚ} {question k : String}
    (acc : Option String × ℚ) (h : containsKeyword k = true) :
    kwStepNoBoost sim question acc k =
      if acc.2 < sim question k
      then (some k, sim question k)
      else acc := by
  unfold kwStepNoBoost
  rw [h]
  simp

theorem nonKwStep_kw {sim : String → String → ℚ} {question k : String}
    (acc : Option String × ℚ) (h : containsKeyword k = true) :
    nonKwStep sim question acc k = acc := by
  unfold nonKwStep
  rw [h]
  simp

theorem nonKwStep_not_kw {sim : String → String → ℚ} {question k : String}
    (acc : Option String × ℚ) (h : containsKeyword k = false) :
    nonKwStep sim question acc k =
      if acc.2 < sim question k
      then (some k, sim question k)
      else acc := by
  unfold nonKwStep
  rw [h]
  simp

theorem boostedScore_of_inputKw {sim : String → String → ℚ}
    {question k : String} (hq : containsKeyword question = true) :
    boostedScore sim question k = sim question k * (6/5) := by
  unfold boostedScore
  rw [if_pos hq]

/-- The relation between the no-boost and the boosted keyword-loop states:
same tracked key, boosted maximum equal to 6/5 of the unboosted one (with
the unboosted one nonnegative), unless both are still at the initial
state. -/
def BoostRel (b a : Option String × ℚ) : Prop :=
  (a.1 = b.1 ∧ a.2 = b.2 * (6/5) ∧ 0 ≤ b.2) ∨
  (a = (none, -1) ∧ b = (none, -1))

theorem kwFold_boost_rel {sim : String → String → ℚ} {q : String}
    (hnn : ∀ a b, 0 ≤ sim a b) (hq : containsKeyword q = true) :
    ∀ (qs : List String) (a b : Option String × ℚ), BoostRel b a →
      BoostRel (kwFoldNoBoost sim q qs b) (kwFold sim q qs a) := by
  intro qs
  induction qs with
  | nil => intro a b h; exact h
  | cons k0 rest ih =>
    intro a b h
    have hstepA : kwFold sim q (k0 :: rest) a =
        kwFold sim q rest (kwStep sim q a k0) := rfl
    have hstepB : kwFoldNoBoost sim q (k0 :: rest) b =
        kwFoldNoBoost sim q rest (kwStepNoBoost sim q b k0) := rfl
    rw [hstepA, hstepB]
    apply ih
    by_cases hkw : containsKeyword k0 = true
    · rw [kwStep_kw a hkw, kwStepNoBoost_kw b hkw,
        boostedScore_of_inputKw hq]
      have hsnn : 0 ≤ sim q k0 := hnn q k0
      rcases h with ⟨hfst, hsnd, hbnn⟩ | ⟨ha, hb⟩
      · by_cases hub : b.2 < sim q k0
        · have hua : a.2 < sim q k0 * (6/5) := by
            rw [hsnd]
            exact (mul_lt_mul_right (by norm_num : (0:ℚ) < 6/5)).mpr hub
          rw [if_pos hua, if_pos hub]
          exact Or.inl ⟨rfl, rfl, hsnn⟩
        · have hua : ¬ a.2 < sim q k0 * (6/5) := by
            rw [hsnd]
            exact fun hc =>
              hub ((mul_lt_mul_right (by norm_num : (0:ℚ) < 6/5)).mp hc)
          rw [if_neg hua, if_neg hub]
          exact Or.inl ⟨hfst, hsnd, hbnn⟩
      · rw [ha, hb]
        have hub : ((none, -1) : Option String × ℚ).2 < sim q k0 :=
          lt_of_lt_of_le (by norm_num) hsnn
        have hua : ((none, -1) : Option String × ℚ).2 < sim q k0 * (6/5) :=
          lt_of_lt_of_le (by norm_num) (mul_nonneg hsnn (by norm_num))
        rw [if_pos hua, if_pos hub]
        exact Or.inl ⟨rfl, rfl, hsnn⟩
    · have hk : containsKeyword k0 = false := by
        cases hb : containsKeyword k0 with
        | false => rfl
        | true => exact absurd hb hkw
      rw [kwStep_not_kw a hk, kwStepNoBoost_not_kw b hk]
      exact h

theorem nonKwFold_snd_mono {sim : String → String → ℚ} {q : String} :
    ∀ (qs : List String) (a b : Option String × ℚ), b.2 ≤ a.2 →
      (nonKwFold sim q qs b).2 ≤ (nonKwFold sim q qs a).2 := by
  intro qs
  induction qs with
  | nil => intro a b h; exact h
  | cons k0 rest ih =>
    intro a b h
    have hstepA : nonKwFold sim q (k0 :: rest) a =
        nonKwFold sim q rest (nonKwStep sim q a k0) := rfl
    have hstepB : nonKwFold sim q (k0 :: rest) b =
        nonKwFold sim q rest (nonKwStep sim q b k0) := rfl
    rw [hstepA, hstepB]
    apply ih
    by_cases hkw : containsKeyword k0 = true
    · rw [nonKwStep_kw a hkw, nonKwStep_kw b hkw]; exact h
    · have hk : containsKeyword k0 = false := by
        cases hb : containsKeyword k0 with
        | false => rfl
        | true => exact absurd hb hkw
      rw [nonKwStep_not_kw a hk, nonKwStep_not_kw b hk]
      by_cases hub : b.2 < sim q k0 <;> by_cases hua : a.2 < sim q k0
      · rw [if_pos hub, if_pos hua]
      · rw [if_pos hub, if_neg hua]
        exact le_of_not_lt hua
      · rw [if_neg hub, if_pos hua]
        exact absurd (lt_of_le_of_lt h hua) hub
      · rw [if_neg hub, if_neg hua]
        exact h

theorem searchState_snd_mono {sim : String → String → ℚ} {db : Store}
    {q : String} (hnn : ∀ a b, 0 ≤ sim a b)
    (hq : containsKeyword q = true) :
    (searchStateNoBoost sim db q).2 ≤ (searchState sim db q).2 := by
  have hrel := kwFold_boost_rel hnn hq (db.map Prod.fst) (none, -1) (none, -1)
    (Or.inr ⟨rfl, rfl⟩)
  have hformA : searchState sim db q =
      (if isFalsy (kwFold sim q (db.map Prod.fst) (none, -1)).1 = true
       then nonKwFold sim q (db.map Prod.fst)
         (kwFold sim q (db.map Prod.fst) (none, -1))
       else kwFold sim q (db.map Prod.fst) (none, -1)) := rfl
  have hformB : searchStateNoBoost sim db q =
      (if isFalsy (kwFoldNoBoost sim q (db.map Prod.fst) (none, -1)).1 = true
       then nonKwFold sim q (db.map Prod.fst)
         (kwFoldNoBoost sim q (db.map Prod.fst) (none, -1))
       else kwFoldNoBoost sim q (db.map Prod.fst) (none, -1)) := rfl
  rw [hformA, hformB]
  rcases hrel with ⟨hfst, hsnd, hbnn⟩ | ⟨ha, hb⟩
  · have hle1 : (kwFoldNoBoost sim q (db.map Prod.fst) (none, -1)).2 ≤
        (kwFold sim q (db.map Prod.fst) (none, -1)).2 := by
      rw [hsnd]
      exact le_mul_of_one_le_right hbnn (by norm_num)
    cases hf : isFalsy (kwFoldNoBoost sim q (db.map Prod.fst) (none, -1)).1 with
    | true =>
      rw [hfst, hf, if_pos rfl, if_pos rfl]
      exact nonKwFold_snd_mono (db.map Prod.fst) _ _ hle1
    | false =>
      rw [hfst, hf, if_neg Bool.false_ne_true, if_neg Bool.false_ne_true]
      exact hle1
  · rw [ha, hb]

/-- C4: with a nonnegative scorer and a query containing a keyword, each
keyword-bearing candidate is scored with the fixed 1.2 multiplier
(`boostedScore`), and whenever the boost-free search accepts a match, the
boosted search also accepts one whose confidence is at least as large —
the boost never lowers the accepted-match confidence. -/
theorem keywordBoostMonotone (sim : String → String → ℚ) (db : Store)
    (q : String) (hnn : ∀ a b, 0 ≤ sim a b)
    (hq : containsKeyword q = true) :
    ∀ r2, getMostSimilarQuestionNoBoost sim db q = some r2 →
      ∃ r1, getMostSimilarQuestion sim db q = some r1 ∧
        r2.maxSimilarity ≤ r1.maxSimilarity := by
  intro r2 h2
  have hmainB : getMostSimilarQuestion sim db q =
      (if (db.map Prod.fst).isEmpty = true then none
       else if (db.map Prod.fst).contains q = true then some ⟨some q, 1⟩
       else if (searchState sim db q).2 < 2/5 then none
            else some ⟨(searchState sim db q).1, (searchState sim db q).2⟩) :=
    rfl
  have hmainN : getMostSimilarQuestionNoBoost sim db q =
      (if (db.map Prod.fst).isEmpty = true then none
       else if (db.map Prod.fst).contains q = true then some ⟨some q, 1⟩
       else if (searchStateNoBoost sim db q).2 < 2/5 then none
            else some ⟨(searchStateNoBoost sim db q).1,
              (searchStateNoBoost sim db q).2⟩) := rfl
  rw [hmainN] at h2
  rw [hmainB]
  by_cases hemp : (db.map Prod.fst).isEmpty = true
  · rw [if_pos hemp] at h2; exact absurd h2 (by simp)
  · rw [if_neg hemp] at h2 ⊢
    by_cases hcont : (db.map Prod.fst).contains q = true
    · rw [if_pos hcont] at h2 ⊢
      refine ⟨⟨some q, 1⟩, rfl, ?_⟩
      have hr2 : r2 = ⟨some q, 1⟩ := (Option.some_inj.mp h2).symm
      rw [hr2]
    · rw [if_neg hcont] at h2 ⊢
      by_cases ht : (searchStateNoBoost sim db q).2 < 2/5
      · rw [if_pos ht] at h2; exact absurd h2 (by simp)
      · rw [if_neg ht] at h2
        have hr2 : r2 = ⟨(searchStateNoBoost sim db q).1,
            (searchStateNoBoost sim db q).2⟩ := (Option.some_inj.mp h2).symm
        have hmono := @searchState_snd_mono sim db q hnn hq
        have ht2 : ¬ (searchState sim db q).2 < 2/5 :=
          fun hlt => ht (lt_of_le_of_lt hmono hlt)
        rw [if_neg ht2]
        refine ⟨⟨(searchState sim db q).1, (searchState sim db q).2⟩, rfl, ?_⟩
        rw [hr2]
        exact hmono

theorem keywordBoostMonotoneWitness :
    ∃ r1, getMostSimilarQuestion (fun _ _ => (1:ℚ)/2) [("javascript", "a")]
        "javascript experience" = some r1 ∧
      (SimResult.mk (some "javascript") (1/2)).maxSimilarity ≤
        r1.maxSimilarity :=
  keywordBoostMonotone (fun _ _ => (1:ℚ)/2) [("javascript", "a")]
    "javascript experience" (fun _ _ => by norm_num) (by decide)
    ⟨some "javascript", 1/2⟩ (by with_unfolding_all decide)
